/-
  Verification of the swatch change-detection engine against its
  natural-language specification.

  Shallow embedding conventions:
  * Python byte strings are `List Nat` (one entry per byte).
  * Python `str` values are Lean `String`; `str.encode()` is modelled by
    `strBytes` (code points; agrees with UTF-8 on ASCII, deterministic and
    injective, which is all the theorems use).
  * `hashlib.sha256(...)` digests are modelled by the byte stream fed to the
    hash object: equal streams give equal digests, and every hash-equality
    claim below is settled through stream equality.  `sha256hex` is a
    deterministic stand-in for `hexdigest()` of an out-of-scope primitive.
  * Python dicts are association lists with unique keys, preserving
    insertion order (Python 3.7+ semantics).
  * Fallible code returns `Except String`.
-/
import Mathlib

namespace Swatch

/-- Python runtime values as they occur in swatch configuration nodes
(scalars, lists, string-keyed mappings).  Mirrors the value universe that
`src/src/loadable.py` serializes in `hash_args`. -/
inductive PyValue where
  | pnone  : PyValue
  | pbool  : Bool → PyValue
  | pint   : Int → PyValue
  | pstr   : String → PyValue
  | pbytes : List Nat → PyValue
  | plist  : List PyValue → PyValue
  | pdict  : List (String × PyValue) → PyValue

/-- Model of `str.encode()` on strings: the sequence of character code
points (agrees with UTF-8 on ASCII input; deterministic, injective). -/
def strBytes (s : String) : List Nat :=
  s.data.map Char.toNat

/-- Python `str(value)` for the scalar values `hash_args` can meet.
`str` of bytes is the Python `repr` (`b'...'`); only determinism of that
case is relied upon. -/
def pyStr : PyValue → String
  | .pnone => "None"
  | .pbool true => "True"
  | .pbool false => "False"
  | .pint n => toString n
  | .pstr s => s
  | .pbytes bs => "b" ++ toString bs
  | .plist _ => "list"
  | .pdict _ => "dict"

/-- Python truthiness (`bool(value)`). -/
def pyTruthy : PyValue → Bool
  | .pnone => false
  | .pbool b => b
  | .pint n => n != 0
  | .pstr s => s != ""
  | .pbytes bs => !bs.isEmpty
  | .plist xs => !xs.isEmpty
  | .pdict kvs => !kvs.isEmpty

/-! ### `hash_args` (src/src/loadable.py lines 41-55)

The Python function threads a `hashlib.sha256` object and feeds it a byte
stream; we embed the stream itself.  `hash_args arg hash skip` extends the
accumulated stream `hash` exactly in the order the source performs
`hash.update` calls: lists are bracketed `[`, each element followed by `,`,
closed by `]`; dicts are bracketed `{`/`}` with `k : v ,` groups, where
keys in `skip_keys` are skipped (source: `if not k in skip_keys`, applied
at every nesting level); every scalar is prefixed with marker byte `s`
followed by `str(arg).encode()`. -/

/-- The scalar branch of `hash_args` (lines 52-54): marker byte `s`, then
`str(arg).encode()`.  A dict key `k` (a string in this model) hashed by
the recursive call `hash_args(k, hash, skip_keys)` takes exactly this
branch with `str(k) = k`. -/
def hashScalar (hash : List Nat) (s : String) : List Nat :=
  hash ++ strBytes "s" ++ strBytes s

mutual

def hash_args (arg : PyValue) (hash : List Nat) (skip : List String) : List Nat :=
  match arg with
  | .plist xs => hashArgsList xs (hash ++ strBytes "[") skip ++ strBytes "]"
  | .pdict kvs => hashArgsKVs kvs (hash ++ strBytes "\x7b") skip ++ strBytes "\x7d"
  | a => hashScalar hash (pyStr a)
termination_by structural arg

def hashArgsList (xs : List PyValue) (hash : List Nat) (skip : List String) : List Nat :=
  match xs with
  | [] => hash
  | x :: rest => hashArgsList rest (hash_args x hash skip ++ strBytes ",") skip
termination_by structural xs

def hashArgsKVs (kvs : List (String × PyValue)) (hash : List Nat) (skip : List String) :
    List Nat :=
  match kvs with
  | [] => hash
  | (k, v) :: rest =>
    if k ∈ skip then hashArgsKVs rest hash skip
    else
      hashArgsKVs rest
        (hash_args v (hashScalar hash k ++ strBytes ":") skip ++ strBytes ",") skip
termination_by structural kvs

end

/-! ### Association-list model of Python dicts -/

/-- First-match lookup (Python dict lookup; keys are unique). -/
def alookup {α : Type} (m : List (String × α)) (k : String) : Option α :=
  match m with
  | [] => none
  | (k', v) :: rest => if k' = k then some v else alookup rest k

/-- Embeds `del m[k]` — remove the entry for `k` (dict keys are unique). -/
def aremove {α : Type} (m : List (String × α)) (k : String) : List (String × α) :=
  m.filter (fun kv => kv.1 ≠ k)

/-- Overwrite-or-append of a dict entry (Python `m[k] = v`). -/
def aput {α : Type} (m : List (String × α)) (k : String) (v : α) : List (String × α) :=
  match alookup m k with
  | some _ => m.map (fun kv => if kv.1 = k then (kv.1, v) else kv)
  | none => m ++ [(k, v)]

/-- Python `{**a, **b}` — entries of `a` in order, values overridden by `b`
where both bind a key, then the keys appearing only in `b` in order. -/
def dictMerge {α : Type} (a b : List (String × α)) : List (String × α) :=
  a.map (fun kv => (kv.1, (alookup b kv.1).getD kv.2)) ++
    b.filter (fun kv => (alookup a kv.1).isNone)

/-! ### Loadable field coercion and hashing (src/src/loadable.py lines 114-167)

Subclass discovery (`prepare`), type resolution (`get_type`) and
`default_key` re-binding happen reflectively before the loop modelled here;
`loadable_load` embeds the body of `Loadable.load` from the point where the
resolved class's merged `loadable_keys` schema is in hand and the `type`
key has been stripped: per-key coercion, defaulting, collection of the
residual kwargs under the reserved `kwargs` key, and the content hash
`hash_args(lkwargs, skip_keys=hash_skip)`. -/

/-- One declared key of a Loadable schema: its coercion (covering both the
function-coercer branch and the isinstance/basic-cast branch of the source,
each written out per concrete key) and the already-materialized default
(callable defaults are invoked to a fresh value; modelled by the value). -/
structure KeySpec where
  coerce : PyValue → Except String PyValue
  default : PyValue

/-- Embeds `type_choice(options, default, throw)` from src/src/loadable.py lines
30-39: accept a value in `options`, else raise when `throw` else return
`default`.  Option lists in the source are lists of strings. -/
def type_choice (options : List String) (default : PyValue) (throw : Bool)
    (arg : PyValue) : Except String PyValue :=
  match arg with
  | .pstr s => if s ∈ options then .ok (.pstr s) else
      if throw then .error ("Argument " ++ s ++ " is not one of the options")
      else .ok default
  | _ => if throw then .error "Argument is not one of the options" else .ok default

/-- Embeds `type_none_or_type(str)` (src/src/loadable.py lines 25-28): `None`
passes through, anything else is cast with `str(...)`. -/
def type_none_or_str (arg : PyValue) : Except String PyValue :=
  match arg with
  | .pnone => .ok .pnone
  | a => .ok (.pstr (pyStr a))

/-- The field-initialisation loop of `Loadable.load` (lines 133-159): walk
the schema in declaration order; a key present in kwargs is coerced and
consumed, an absent key takes its default.  Returns the coerced field list
and the residual kwargs. -/
def load_lkwargs (schema : List (String × KeySpec)) (kwargs : List (String × PyValue)) :
    Except String (List (String × PyValue) × List (String × PyValue)) :=
  match schema with
  | [] => .ok ([], kwargs)
  | (k, spec) :: rest =>
    match alookup kwargs k with
    | some v => do
      let cv ← spec.coerce v
      let (lk, residual) ← load_lkwargs rest (aremove kwargs k)
      pure ((k, cv) :: lk, residual)
    | none => do
      let (lk, residual) ← load_lkwargs rest kwargs
      pure ((k, spec.default) :: lk, residual)

/-- Result of `Loadable.load`: the coerced field map (with the residual
kwargs attached under `"kwargs"`, line 162) and the content-hash stream
(line 165, `hash_args(lkwargs, skip_keys=hash_skip)`). -/
structure LoadResult where
  lkwargs : List (String × PyValue)
  hashStream : List Nat

/-- Embeds `Loadable.load` from the schema-driven loop onwards (lines 132-167). -/
def loadable_load (schema : List (String × KeySpec)) (hash_skip : List String)
    (kwargs : List (String × PyValue)) : Except String LoadResult := do
  let (lk, residual) ← load_lkwargs schema kwargs
  let lkw := lk ++ [("kwargs", .pdict residual)]
  pure { lkwargs := lkw, hashStream := hash_args (.pdict lkw) [] hash_skip }

/-- Embeds `Loadable.update_hash` (lines 169-171): fold extra data into the
existing digest stream. -/
def update_hash (r : LoadResult) (arg : PyValue) : LoadResult :=
  { r with hashStream := hash_args arg r.hashStream [] }

/-! ### Context (src/src/context.py)

A frame is the Python dict `{"_frameId": id, name: [v, ...], ...}`; the
`_frameId` entry is kept as a separate field, the per-name value stacks as
an association list whose lists are appended at the tail and read at `[-1]`
exactly like the source.  `self.frames` appends new frames at the tail, so
the head of `frames` is the oldest (root) frame.  The context value type is
a parameter: the Python store is untyped. -/

structure Frame (α : Type) where
  frameId : Option String
  vars : List (String × List α)

structure Context (α : Type) where
  frames : List (Frame α)
  pvars : List (String × α)

/-- Embeds `Context.__init__`: one root frame, empty process-scope map. -/
def Context.init (α : Type) : Context α :=
  { frames := [{ frameId := some "root", vars := [] }], pvars := [] }

/-- Embeds `push_frame(id)`: append a fresh frame. -/
def push_frame {α : Type} (ctx : Context α) (id : Option String) : Context α :=
  { ctx with frames := ctx.frames ++ [{ frameId := id, vars := [] }] }

/-- Embeds `pop_frame(id)`: pop the last frame; mismatching ids raise. -/
def pop_frame {α : Type} (ctx : Context α) (id : Option String) :
    Except String (Context α) :=
  match ctx.frames.getLast? with
  | none => .error "pop from empty list"
  | some f =>
    if f.frameId = id then .ok { ctx with frames := ctx.frames.dropLast }
    else .error "Stack frames do not match up"

/-- Replace the value bound to `k`, or append the binding (Python
`setdefault(k, []).append(v)` insertion order). -/
def varsPush {α : Type} (vars : List (String × List α)) (k : String) (v : α) :
    List (String × List α) :=
  match alookup vars k with
  | some stack => vars.map (fun kv => if kv.1 = k then (kv.1, stack ++ [v]) else kv)
  | none => vars ++ [(k, [v])]

/-- Embeds `push_variable(key, value)` (lines 31-35): append to the per-name stack
of the most recent frame; raises when there is no frame. -/
def push_variable {α : Type} (ctx : Context α) (k : String) (v : α) :
    Except String (Context α) :=
  match ctx.frames.getLast? with
  | none => .error "No context frame to push to"
  | some f =>
    .ok { ctx with frames := ctx.frames.dropLast ++ [{ f with vars := varsPush f.vars k v }] }

/-- Embeds `pop_variable(key)` (lines 37-44): pop the last value of the current
frame's stack for `key`, deleting the entry when it empties. -/
def pop_variable {α : Type} (ctx : Context α) (k : String) :
    Except String (Context α × α) :=
  match ctx.frames.getLast? with
  | none => .error "No context frame to push to"
  | some f =>
    match alookup f.vars k with
    | none => .error "KeyError"
    | some stack =>
      match stack.getLast? with
      | none => .error "IndexError: pop from empty list"
      | some v =>
        let stack' := stack.dropLast
        let vars' := if stack'.isEmpty then aremove f.vars k
          else f.vars.map (fun kv => if kv.1 = k then (kv.1, stack') else kv)
        .ok ({ ctx with frames := ctx.frames.dropLast ++ [{ f with vars := vars' }] }, v)

/-- Embeds `set_variable(key, value)` (lines 46-47): write the process-scope map. -/
def set_variable {α : Type} (ctx : Context α) (k : String) (v : α) : Context α :=
  { ctx with pvars := (if (alookup ctx.pvars k).isSome then
      ctx.pvars.map (fun kv => if kv.1 = k then (kv.1, v) else kv)
    else ctx.pvars ++ [(k, v)]) }

/-- Embeds `get_variable(key, default)` (lines 49-56), exactly as written: iterate
`self.frames` STARTING AT INDEX 0 (the oldest frame), return the last
value of the first frame that binds the name, and only then fall back to
the process-scope map.  `none` stands for the `default`. -/
def get_variable {α : Type} (ctx : Context α) (k : String) : Option α :=
  match ctx.frames.find? (fun f => (alookup f.vars k).isSome) with
  | some f => (alookup f.vars k).bind List.getLast?
  | none => alookup ctx.pvars k

/-! ### SelectorItem (src/src/selector.py lines 22-48) -/

/-- A value held in an item's `vars` mapping: the pipeline stores byte
strings there, `str` keys also occur (regex named groups give bytes,
`format`'s `var` gives bytes, JSON gives encoded bytes). -/
inductive VarVal where
  | vbytes : List Nat → VarVal
  | vstr : String → VarVal
deriving DecidableEq, Repr

/-- The unit flowing through selectors: `value` bytes plus named vars. -/
structure SelectorItem where
  value : List Nat
  vars : List (String × VarVal)
deriving DecidableEq, Repr

/-- Embeds `SelectorItem.clone` (src/src/selector.py lines 27-28), exactly as
written: `SelectorItem(value or self.value, {**self.vars, **vars})`.
Note the `or`: a falsy replacement — `None` but also the EMPTY byte string
— keeps the original value. -/
def SelectorItem.clone (it : SelectorItem) (value : Option (List Nat))
    (vars : List (String × VarVal)) : SelectorItem :=
  { value := match value with
      | some v => if v.isEmpty then it.value else v
      | none => it.value
    vars := dictMerge it.vars vars }

/-! ### The generic selector contract `Selector.execute`
(src/src/selector.py lines 71-98)

Context variables seen by selectors are arbitrary Python objects; the ones
this code path distinguishes are lists (`isinstance(_data, list)`), selector
items, and anything else. -/

inductive PyObj where
  | oItem : SelectorItem → PyObj
  | oList : List PyObj → PyObj
  | oVal : PyValue → PyObj

def PyObj.isItem : PyObj → Bool
  | .oItem _ => true
  | _ => false

/-- Step 1 of `execute`: when `input` is set, replace the pipeline items
with `ctx.get_variable(self.input)`, wrapped into a singleton list when
the looked-up value is not a list (an unbound name gives `[None]`). -/
def resolve_input (inputF : Option String) (ctx : Context PyObj)
    (data : List PyObj) : List PyObj :=
  match inputF with
  | none => data
  | some i =>
    match get_variable ctx i with
    | some (.oList xs) => xs
    | some v => [v]
    | none => [.oVal .pnone]

/-- Embeds `Selector.execute` (lines 71-98): resolve `input`, call the subclass
`run_all` (passed here as a function, modelling dynamic dispatch; it may
mutate the context), typecheck the result (`InvalidSelectorResult`
otherwise), and on `store` push the result and pass the ORIGINAL data
through. -/
def selector_execute (inputF storeF : Option String)
    (runAll : Context PyObj → List PyObj → Context PyObj × List PyObj)
    (ctx : Context PyObj) (data : List PyObj) :
    Except String (Context PyObj × List PyObj) :=
  let r := runAll ctx (resolve_input inputF ctx data)
  if r.2.all PyObj.isItem then
    match storeF with
    | some s => do
      let ctx'' ← push_variable r.1 s (.oList r.2)
      pure (ctx'', data)
    | none => .ok r
  else .error "Invalid result from selector"

/-! ### Cache selectors `new` and `since` (src/src/selector.py lines 319-396)

These reach the Cache through `ctx.get_variable("cache")` and mutate it in
place; we pass the blob store explicitly.  The store is keyed by the
effective cache key string (the Cache additionally sha256-hashes key
strings and JSON round-trips values through `put_file`/`get_file`; both
are faithful to identity for the list-of-bytes / bytes values these
selectors store).  `CVal` covers the JSON values the modelled code paths
produce. -/

inductive CVal where
  | cbytes : List Nat → CVal
  | cbytesList : List (List Nat) → CVal
  | cstr : String → CVal
  | cint : Int → CVal
  | cbool : Bool → CVal
deriving DecidableEq, Repr

/-- Python truthiness of a cached value (`if data:`). -/
def cTruthy : CVal → Bool
  | .cbytes bs => !bs.isEmpty
  | .cbytesList l => !l.isEmpty
  | .cstr s => s != ""
  | .cint n => n != 0
  | .cbool b => b

/-- The blob store of an open cache, keyed by the user key string. -/
abbrev CacheFiles := List (String × CVal)

/-- Embeds `Cache.put_file`: overwrite-or-append. -/
def files_put (c : CacheFiles) (k : String) (v : CVal) : CacheFiles :=
  aput c k v

/-- Deterministic stand-in for `hashlib.sha256(bytes).hexdigest()` (the
hash primitive is out of scope; only determinism is used). -/
def sha256hex (bs : List Nat) : String :=
  bs.foldl (fun acc b => acc ++ toString b ++ "-") "sha256:"

/-- The derived key of an item (src/src/selector.py lines 358-361 and
380-383): `item.vars.get(self.key, sha256(item.value).hexdigest())`,
coerced to bytes when it is a `str`. -/
def derivedKey (selKey : String) (it : SelectorItem) : List Nat :=
  match alookup it.vars selKey with
  | some (.vbytes b) => b
  | some (.vstr s) => strBytes s
  | none => strBytes (sha256hex it.value)

/-- The loop of `NewSelector.run_all` (lines 355-365): emit items whose
derived key is not in the cached set, adding each emitted key.  The set is
modelled as a duplicate-free insertion-ordered list (only membership is
observable). -/
def newGo (selKey : String) : List SelectorItem → List (List Nat) →
    List SelectorItem → List (List Nat) × List SelectorItem
  | [], cached, acc => (cached, acc)
  | it :: rest, cached, acc =>
    let key := derivedKey selKey it
    if key ∈ cached then newGo selKey rest cached acc
    else newGo selKey rest (cached ++ [key]) (acc ++ [it])

/-- Embeds `CacheSelector.get_cached_data` (lines 327-338) for `NewSelector`
(`type = set`): `set(data)` when the stored value is truthy, else a fresh
`set()`.  The stored value is the list of keys `put_cached_data` wrote. -/
def new_get_cached_data (cache : CacheFiles) (hk : String) : List (List Nat) :=
  match alookup cache hk with
  | some v => if cTruthy v then (match v with | .cbytesList l => l | _ => []) else []
  | none => []

/-- Embeds `NewSelector.run_all` (lines 352-368) over blob store `cache` with the
already-computed effective cache key `hk` (`expand(cache_key)` or the
hash-derived default): read the cached set, filter, then store the union
back (`put_cached_data(ctx, list(cached_set))`). -/
def new_run_all (selKey hk : String) (cache : CacheFiles)
    (items : List SelectorItem) : CacheFiles × List SelectorItem :=
  let r := newGo selKey items (new_get_cached_data cache hk) []
  (files_put cache hk (.cbytesList r.1), r.2)

/-- The marker search of `SinceSelector.run_all` (lines 378-387):
`for i, item in enumerate(items): if item_value == last_value: index = i;
break` — the index of the first item satisfying the predicate. -/
def sinceIdx (p : SelectorItem → Bool) : List SelectorItem → Option Nat
  | [] => none
  | it :: rest => if p it then some 0 else (sinceIdx p rest).map (· + 1)

/-- Embeds `CacheSelector.get_cached_data` for `SinceSelector` (`type = None`):
return the stored value when truthy (`if data: return data`), else `None`.

`since_run_all` (lines 375-396): emit items strictly before the first item
whose derived key equals the stored marker (all items when no truthy
marker is stored), then store the new first emitted item's key as the
marker (only when something was emitted). -/
def since_get_cached_data (cache : CacheFiles) (hk : String) : Option CVal :=
  match alookup cache hk with
  | some v => if cTruthy v then some v else none
  | none => none

/-- The index of the previously observed marker among the items (`None`
when no truthy marker is stored). -/
def since_index (selKey : String) (marker : Option CVal)
    (items : List SelectorItem) : Option Nat :=
  match marker with
  | none => none
  | some lv => sinceIdx (fun it => CVal.cbytes (derivedKey selKey it) == lv) items

def since_run_all (selKey hk : String) (cache : CacheFiles)
    (items : List SelectorItem) : CacheFiles × List SelectorItem :=
  let index := since_index selKey (since_get_cached_data cache hk) items
  let out := items.take (index.getD items.length)
  match out with
  | [] => (cache, [])
  | it0 :: rest => (files_put cache hk (.cbytes (derivedKey selKey it0)), it0 :: rest)

/-! ### `lines` selector (src/src/selector.py lines 193-204) -/

/-- Regex `\s` over bytes: space, tab, newline, carriage return, vertical
tab, form feed. -/
def isSpaceByte (b : Nat) : Bool :=
  b == 32 || b == 9 || b == 10 || b == 13 || b == 11 || b == 12

/-- Try to match the regex `<(br\s*/|/p)>` at the head of the byte string;
on success return the matched bytes and the remainder.  The alternatives
are disjoint on the byte after `<` (`b` vs `/`), and the greedy `\s*`
followed by the mandatory `/` is equivalent to maximal munch. -/
def tagMatch (bs : List Nat) : Option (List Nat × List Nat) :=
  match bs with
  | 60 :: 98 :: 114 :: rest2 =>
    let ws := rest2.takeWhile isSpaceByte
    (match rest2.dropWhile isSpaceByte with
     | 47 :: 62 :: rest4 => some ([60, 98, 114] ++ ws ++ [47, 62], rest4)
     | _ => none)
  | 60 :: 47 :: 112 :: 62 :: rest4 => some ([60, 47, 112, 62], rest4)
  | _ => none

/-- Embeds `re.sub(rb'<(br\s*/|/p)>', b'<\\1>\n', value)` (line 202): replace each
leftmost non-overlapping match with itself followed by a line feed. -/
def htmlRewriteGo : Nat → List Nat → List Nat
  | 0, bs => bs
  | fuel + 1, bs =>
    match tagMatch bs with
    | some (m, rest) => m ++ [10] ++ htmlRewriteGo fuel rest
    | none =>
      match bs with
      | [] => []
      | b :: rest => b :: htmlRewriteGo fuel rest

def htmlRewrite (bs : List Nat) : List Nat :=
  htmlRewriteGo bs.length bs

/-- Python `bytes.splitlines(keepends)`: split on `\n`, `\r` and `\r\n`,
no trailing empty chunk. -/
def splitlinesGo (keepends : Bool) : List Nat → List Nat → List (List Nat)
  | 13 :: 10 :: rest, cur =>
    (cur ++ if keepends then [13, 10] else []) :: splitlinesGo keepends rest []
  | 13 :: rest, cur =>
    (cur ++ if keepends then [13] else []) :: splitlinesGo keepends rest []
  | 10 :: rest, cur =>
    (cur ++ if keepends then [10] else []) :: splitlinesGo keepends rest []
  | b :: rest, cur => splitlinesGo keepends rest (cur ++ [b])
  | [], cur => if cur.isEmpty then [] else [cur]

def splitlinesB (keepends : Bool) (bs : List Nat) : List (List Nat) :=
  splitlinesGo keepends bs []

/-- Embeds `LinesSelector.run` (lines 199-204), exactly as written.  Line 201 is
`if html:` — that names the imported `html` MODULE (always truthy), not the
selector's `html` field, so the tag rewrite runs unconditionally and the
`html_field` argument is dead, faithfully to the source. -/
def lines_run (keepends : Bool) (html_field : Bool) (it : SelectorItem) :
    List SelectorItem :=
  let value := htmlRewrite it.value
  (splitlinesB keepends value).map (fun x => it.clone (some x) [])

/-- What the specification describes for `html=false`: a plain line split
of the unmodified value. -/
def lines_run_spec_plain (keepends : Bool) (it : SelectorItem) :
    List SelectorItem :=
  (splitlinesB keepends it.value).map (fun x => it.clone (some x) [])

/-! ### `MultipleWatch` (src/src/watch.py lines 248-300) -/

/-- The comment tree accumulated by watches: strings and nested lists
(`comment = [*self.get_comment(ctx), comment]`). -/
inductive Comment where
  | cstr : String → Comment
  | clist : List Comment → Comment

/-- The declared coercer of the `operator` key (line 255):
`type_choice(["all", "and", "any", "or", "last"], throw=True)` — note the
absence of `"break"`. -/
def multiple_operator_coercer : PyValue → Except String PyValue :=
  type_choice ["all", "and", "any", "or", "last"] .pnone true

/-- The `MultipleWatch` key schema (line 254-256): `operator` with the
throwing choice coercer and default `"any"`. -/
def multiple_watch_schema : List (String × KeySpec) :=
  [("operator", { coerce := multiple_operator_coercer, default := .pstr "any" })]

/-- Accumulator of the `MultipleWatch.run` loop (lines 266-294):
`trigger`, the loop-local `_trigger`, accumulated comment/data, the number
of children consumed from the generator, and whether the `all` operator
returned early. -/
structure MRAcc where
  trigger : Bool
  lastTrigger : Bool
  comment : List Comment
  data : List PyValue
  consumed : Nat
  earlyExit : Bool

/-- The child loop of `MultipleWatch.run`: each child is represented by the
`(trigger, comment, data)` triple its `process(ctx)` returns; children not
reached by the loop are never processed (the generator is lazy). -/
def mr_loop (op : String) : List (Bool × List Comment × List PyValue) → MRAcc → MRAcc
  | [], acc => acc
  | (t, c, d) :: rest, acc =>
    let acc := { acc with consumed := acc.consumed + 1, lastTrigger := t }
    if (op = "all" ∨ op = "and") ∧ t = false then
      { acc with trigger := false, comment := [], data := [], earlyExit := true }
    else
      let acc := { acc with trigger := acc.trigger || t }
      let acc := if t then { acc with comment := acc.comment ++ c, data := acc.data ++ d }
        else acc
      if op = "break" ∧ t = false then acc
      else mr_loop op rest acc

/-- Embeds `MultipleWatch.run` (lines 266-300).  `selfComment` is the expanded own
comment when set (`get_comment`), `children` the lazy stream of child
results.  Returns the `(trigger, comment, data)` triple together with how
many children were consumed. -/
def multiple_run (op : String) (selfComment : Option String)
    (children : List (Bool × List Comment × List PyValue)) :
    (Bool × List Comment × List PyValue) × Nat :=
  let acc := mr_loop op children
    { trigger := false, lastTrigger := false, comment := [], data := [],
      consumed := 0, earlyExit := false }
  if acc.earlyExit then ((false, [], []), acc.consumed)
  else
    let res :=
      if op = "last" then
        (acc.lastTrigger,
         match acc.comment.getLast? with | some c => [c] | none => [],
         match acc.data.getLast? with | some d => [d] | none => [])
      else (acc.trigger, acc.comment, acc.data)
    let res := match selfComment with
      | some sc => (res.1, [Comment.cstr sc, Comment.clist res.2.1], res.2.2)
      | none => res
    (res, acc.consumed)

/-! ### Cache lifecycle (src/src/cache.py)

State of a `Cache` object: the constructor path, the in-memory entries map
(`self.cache`, keyed by `sha256(key)`), the blob files living in the
temporary directory, whether that directory still exists, and the `closed`
flag.  External effects (tar, yaml, Fernet) are out of scope and assumed to
succeed; what matters for the claims is which filesystem paths each method
touches. -/

structure CacheSt where
  cachePath : Option String
  dirExists : Bool
  entries : List (String × CVal)
  files : List (String × CVal)
  closed : Bool

/-- Embeds `Cache.__init__` with no archive to extract. -/
def cache_init (path : Option String) : CacheSt :=
  { cachePath := path, dirExists := true, entries := [], files := [], closed := false }

/-- Embeds `sha256(key.encode()).hexdigest()` applied to every user key. -/
def keyHash (k : String) : String :=
  sha256hex (strBytes k)

/-- Embeds `Cache.put_entry` (lines 108-110): unconditional write to the
in-memory map — there is NO check of `self.closed`. -/
def cache_put_entry (c : CacheSt) (k : String) (v : CVal) : CacheSt :=
  { c with entries := aput c.entries (keyHash k) v }

/-- Embeds `Cache.get_entry` (lines 104-106); `none` stands for the default. -/
def cache_get_entry (c : CacheSt) (k : String) : Option CVal :=
  alookup c.entries (keyHash k)

/-- Embeds `Cache.has_entry` (lines 100-102). -/
def cache_has_entry (c : CacheSt) (k : String) : Bool :=
  (alookup c.entries (keyHash k)).isSome

/-- Embeds `Cache.put_file` (lines 91-98): opens a file inside the temporary
directory — fails with `FileNotFoundError` once the directory is gone. -/
def cache_put_file (c : CacheSt) (k : String) (v : CVal) : Except String CacheSt :=
  if c.dirExists then .ok { c with files := aput c.files (keyHash k) v }
  else .error "FileNotFoundError"

/-- Embeds `Cache.get_file` (lines 80-89): `os.path.isfile` in the temporary
directory, so after the directory is removed every lookup degrades to the
default. -/
def cache_get_file (c : CacheSt) (k : String) : Option CVal :=
  if c.dirExists then alookup c.files (keyHash k) else none

/-- Embeds `Cache.has_file` (lines 76-78). -/
def cache_has_file (c : CacheSt) (k : String) : Bool :=
  c.dirExists && (alookup c.files (keyHash k)).isSome

/-- Embeds `Cache.close` (lines 52-66), exactly as written: set `self.closed`,
then — on both the archive and the archive-less path — operate inside the
temporary directory (write `cache.yaml` resp. `shutil.rmtree`) and remove
it.  A second call finds the directory gone and raises
(`FileNotFoundError` from `open` resp. `rmtree`); nothing consults
`self.closed`. -/
def cache_close (c : CacheSt) : Except String CacheSt :=
  let c := { c with closed := true }
  match c.cachePath with
  | some _ =>
    if c.dirExists then .ok { c with dirExists := false, files := [] }
    else .error "FileNotFoundError: cache.yaml"
  | none =>
    if c.dirExists then .ok { c with dirExists := false, files := [] }
    else .error "FileNotFoundError: rmtree"

/-! ### Top-level failure accounting (src/src/watch.py lines 106-160)

The `except` branch of `Watch.execute`: read the old failure counter
(`cache.get_entry(f"{hash}-failures")`, default `None`), store
`failure_count + 1`, and dispatch `action.error` to the configured actions
exactly when the OLD value is in `[3, 10, 25, 50]`.  The returned `Bool`
records whether the error dispatch fired.  On a cache that has never
stored the counter, `failure_count` is `None` and `None + 1` raises
`TypeError`. -/

def failureThresholds : List Int := [3, 10, 25, 50]

def watch_execute_fail (c : CacheSt) (h : String) : Except String (CacheSt × Bool) :=
  match cache_get_entry c (h ++ "-failures") with
  | some (.cint n) =>
    .ok (cache_put_entry c (h ++ "-failures") (.cint (n + 1)),
         decide (n ∈ failureThresholds))
  | some _ => .error "TypeError: unsupported operand type(s) for +"
  | none => .error "TypeError: unsupported operand type(s) for +: NoneType and int"

/-- The success path of `Watch.execute` (line 145): clear the counter. -/
def watch_execute_success (c : CacheSt) (h : String) : CacheSt :=
  cache_put_entry c (h ++ "-failures") (.cint 0)

/-- Embeds `n` consecutive failing runs: thread the cache and count how many runs
dispatched the error action. -/
def iterate_failures (c : CacheSt) (h : String) : Nat → Except String (CacheSt × Nat)
  | 0 => .ok (c, 0)
  | n + 1 => do
    let (c', k) ← iterate_failures c h n
    let (c'', b) ← watch_execute_fail c' h
    pure (c'', k + if b then 1 else 0)

/-- The state of a path-less cache right after a successful `close`. -/
def closedCacheNone : CacheSt :=
  { cachePath := none, dirExists := false, entries := [], files := [], closed := true }

/-- The number of thresholds strictly below `n`: how many error dispatches
the failure-accounting code performs over `n` consecutive failures starting
from a zeroed counter. -/
def countThresholds (n : Nat) : Nat :=
  (failureThresholds.filter (fun t => t < (n : Int))).length

/-! ### Concrete context scenario for the frame-lookup claim -/

/-- Push `x := 1` in an outer frame, then `x := 2` in an inner frame, and
look `x` up — the operation sequence of a parent watch and a nested child
watch each binding the same name. -/
def shadowScenario : Option Nat := do
  let ctx := Context.init Nat
  let ctx := push_frame ctx (some "outer")
  let ctx ← (push_variable ctx "x" 1).toOption
  let ctx := push_frame ctx (some "inner")
  let ctx ← (push_variable ctx "x" 2).toOption
  get_variable ctx "x"

/-- The `(str, None)` key declaration of the source schemas (e.g. the
`comment` key of `Watch.keys`): a `str` value is accepted, anything else
basic-cast with `str(...)`; default `None`. -/
def keySpecStr : KeySpec :=
  { coerce := fun v => .ok (.pstr (pyStr v)), default := .pnone }

/-- The declared keys of a Watch relevant to hashing the `comment` field
(`Watch.keys` declares `comment : (str, None)`; `cmd` stands for the
subclass's data key). -/
def watch_like_schema : List (String × KeySpec) :=
  [("comment", keySpecStr), ("cmd", keySpecStr)]

/-- The context after the witness run of `selector_execute`: the root
frame holds the stored result under `"st"`. -/
def wCtxR : Context PyObj :=
  { frames := [{ frameId := some "root",
                 vars := [("st", [.oList [.oItem ⟨[1], []⟩]])] }],
    pvars := [] }

/-- Erase the entries whose key lies in `skip` (top-level), keeping order:
two kwargs maps "differ only in `hash_skip` fields" exactly when their
erasures are equal. -/
def fskip (skip : List String) (m : List (String × PyValue)) :
    List (String × PyValue) :=
  m.filter (fun kv => decide (kv.1 ∉ skip))

/-! ## Generic association-list lemmas -/

theorem alookup_map_update {α : Type} (m : List (String × α)) (k : String) (v : α) :
    alookup (m.map (fun kv => if kv.1 = k then (kv.1, v) else kv)) k =
      (alookup m k).map (fun _ => v) := by
  induction m with
  | nil => rfl
  | cons kv rest ih =>
    simp only [List.map_cons]
    by_cases h : kv.1 = k
    · rw [if_pos h]
      simp [alookup, h]
    · rw [if_neg h]
      simp [alookup, h, ih]

theorem alookup_append_none {α : Type} (m l : List (String × α)) (k : String)
    (h : alookup m k = none) : alookup (m ++ l) k = alookup l k := by
  induction m with
  | nil => rfl
  | cons kv rest ih =>
    by_cases hk : kv.1 = k
    · simp [alookup, hk] at h
    · simp [alookup, hk] at h ⊢
      exact ih h

theorem aput_lookup {α : Type} (m : List (String × α)) (k : String) (v : α) :
    alookup (aput m k v) k = some v := by
  unfold aput
  cases h : alookup m k with
  | some w => rw [alookup_map_update, h]; rfl
  | none =>
    rw [alookup_append_none m _ k h]
    simp [alookup]

theorem cache_put_get (c : CacheSt) (k : String) (v : CVal) :
    cache_get_entry (cache_put_entry c k v) k = some v := by
  unfold cache_get_entry cache_put_entry
  exact aput_lookup _ _ _

/-! ## Claim theorems -/

/-- C1: `Context.get_variable` iterates `self.frames` from index 0, and
frames are appended at the tail, so the lookup scans the OLDEST frame
first: after pushing `x := 1` in an outer frame and `x := 2` in an inner
frame, `get_variable("x")` returns 1, not the most recently pushed 2 —
the outer binding shadows the inner one, contrary to the claim (and to the
function's own docstring "Get the most recent value"). -/
theorem context_lookup_scans_oldest_frame_first :
    shadowScenario = some 1 ∧ shadowScenario ≠ some 2 := by
  constructor
  · rfl
  · decide

/-- C2: the `operator` key of `MultipleWatch` is coerced with
`type_choice(["all", "and", "any", "or", "last"], throw=True)`, so loading
a configuration with `operator: break` raises a `LoadableException` — even
though `MultipleWatch.run` implements break semantics (consume children
until the first false trigger, then stop: on child results
true/false/true it consumes exactly 2 children).  The feature is
unreachable through `load`. -/
theorem break_operator_rejected_at_load :
    (loadable_load multiple_watch_schema ["comment"]
      [("operator", .pstr "break")]).toOption = none ∧
    multiple_run "break" none [(true, [], []), (false, [], []), (true, [], [])] =
      ((true, [], []), 2) := by
  exact ⟨rfl, rfl⟩

/-- C8: `LinesSelector.run` tests `if html:` — the imported `html` MODULE,
not the selector's `html` field — so the `<br/>`/`</p>` rewrite happens
even with `html=false`: on value `a<br/>b` the selector yields two items
where a plain line split of the unmodified value yields one. -/
theorem lines_selector_rewrites_unconditionally :
    lines_run false false ⟨strBytes "a<br/>b", []⟩ =
      [⟨strBytes "a<br/>", []⟩, ⟨strBytes "b", []⟩] ∧
    lines_run_spec_plain false ⟨strBytes "a<br/>b", []⟩ =
      [⟨strBytes "a<br/>b", []⟩] ∧
    lines_run false false ⟨strBytes "a<br/>b", []⟩ ≠
      lines_run_spec_plain false ⟨strBytes "a<br/>b", []⟩ := by
  refine ⟨by decide, by decide, by decide⟩

/-- C9 counterexample: `clone` computes `value or self.value`, and the
empty byte string is falsy, so cloning with the empty value keeps the
ORIGINAL value — the claim that the new item's value equals the requested
value "including when it is the empty byte sequence" fails on
`Item(b"x").clone(b"")`. -/
theorem clone_empty_value_not_replaced :
    (SelectorItem.clone ⟨[120], []⟩ (some []) []).value = [120] ∧
    (SelectorItem.clone ⟨[120], []⟩ (some []) []).value ≠ [] := by
  refine ⟨rfl, by decide⟩

/-- C9 amended: `clone` replaces the value only when the replacement is
non-empty (truthy); an empty or absent replacement keeps the original
value; the vars are always `{**self.vars, **overlay}` with the overlay
winning.  (The original item is immutable — a new structure is built.) -/
theorem clone_semantics (it : SelectorItem) (v : List Nat)
    (o : List (String × VarVal)) (hv : v ≠ []) :
    SelectorItem.clone it (some v) o = ⟨v, dictMerge it.vars o⟩ ∧
    (SelectorItem.clone it (some []) o).value = it.value ∧
    (SelectorItem.clone it none o).value = it.value ∧
    (SelectorItem.clone it none o).vars = dictMerge it.vars o := by
  refine ⟨?_, rfl, rfl, rfl⟩
  simp [SelectorItem.clone, List.isEmpty_iff, hv]

/-- Witness for the amended clone semantics at `value = [1]`. -/
theorem clone_semantics_witness :
    SelectorItem.clone ⟨[120], []⟩ (some [1]) [("k", .vstr "v")] =
      ⟨[1], dictMerge ([] : List (String × VarVal)) [("k", .vstr "v")]⟩ ∧
    ([1] : List Nat) ≠ [] :=
  ⟨(clone_semantics ⟨[120], []⟩ [1] [("k", .vstr "v")] (by decide)).1, by decide⟩

/-- C10: `hash_args` prefixes every scalar with the same marker byte `s`
and hashes `str(value)`, and unknown kwargs reach the hash uncoerced via
the retained `kwargs` dict, so the integer `1` and the string `"1"` (and
`True` versus `"True"`) produce identical Loadable hash streams, hence
identical sha256 hashes and cache keys. -/
theorem scalar_hash_type_confusion :
    (loadable_load watch_like_schema [] [("cmd", .pstr "x"), ("flag", .pint 1)]).toOption.map
        LoadResult.hashStream =
      (loadable_load watch_like_schema [] [("cmd", .pstr "x"), ("flag", .pstr "1")]).toOption.map
        LoadResult.hashStream ∧
    (loadable_load watch_like_schema [] [("cmd", .pstr "x"), ("flag", .pbool true)]).toOption.map
        LoadResult.hashStream =
      (loadable_load watch_like_schema [] [("cmd", .pstr "x"), ("flag", .pstr "True")]).toOption.map
        LoadResult.hashStream ∧
    PyValue.pint 1 ≠ PyValue.pstr "1" := by
  refine ⟨by decide, by decide, ?_⟩
  intro h
  cases h

/-- C6 counterexample: the failure branch of `Watch.execute` reads the OLD
counter value and dispatches when THAT is in `[3, 10, 25, 50]`, so after
three consecutive failures (counter now 3) NO error action has been
dispatched — the claim that the error action fires when the consecutive
failure count reaches 3 fails. -/
theorem failure_threshold_not_at_three :
    (iterate_failures (watch_execute_success (cache_init none) "h") "h" 3).toOption.map
        (fun p => (cache_get_entry p.1 "h-failures", p.2)) =
      some (some (.cint 3), 0) ∧
    (iterate_failures (watch_execute_success (cache_init none) "h") "h" 3).toOption.map
        Prod.snd ≠ some 1 := by
  refine ⟨by decide, by decide⟩

/-- C7 counterexample: `Cache.close` removes the temporary directory, so a
second `close` raises (`FileNotFoundError`) instead of being a no-op, and
`put_entry` after `close` silently succeeds against the in-memory map
instead of failing — both halves of the claim fail on a freshly
constructed, immediately closed cache. -/
theorem cache_close_not_idempotent :
    cache_close (cache_init none) = .ok closedCacheNone ∧
    (cache_close closedCacheNone).toOption = none ∧
    cache_get_entry (cache_put_entry closedCacheNone "k" (.cint 5)) "k" =
      some (.cint 5) := by
  refine ⟨rfl, rfl, rfl⟩

theorem countThresholds_closed (n : Nat) :
    countThresholds n =
      (if (3 : Int) < n then 1 else 0) + (if (10 : Int) < n then 1 else 0) +
        (if (25 : Int) < n then 1 else 0) + (if (50 : Int) < n then 1 else 0) := by
  simp only [countThresholds, failureThresholds, List.filter_cons, List.filter_nil]
  split_ifs <;> simp_all

theorem countThresholds_step (n : Nat) :
    countThresholds (n + 1) =
      countThresholds n + (if (n : Int) ∈ failureThresholds then 1 else 0) := by
  rw [countThresholds_closed, countThresholds_closed]
  simp only [failureThresholds, List.mem_cons, List.not_mem_nil, or_false]
  push_cast
  split_ifs <;> omega

/-- C6 amended: starting from a freshly reset counter, after `n`
consecutive failures the counter equals `n` and exactly
`countThresholds n` error dispatches have occurred — one per threshold in
`{3, 10, 25, 50}` strictly below `n`, so the dispatch fires on the 4th,
11th, 26th and 51st consecutive failure (when the pre-increment counter is
3, 10, 25, 50); the next failure dispatches iff `n` itself is a threshold,
and a successful run resets the counter to 0. -/
theorem failure_accounting (c : CacheSt) (h : String) (n : Nat) :
    ∃ c', iterate_failures (watch_execute_success c h) h n = .ok (c', countThresholds n) ∧
      cache_get_entry c' (h ++ "-failures") = some (.cint (n : Int)) ∧
      (watch_execute_fail c' h).map Prod.snd =
        .ok (decide ((n : Int) ∈ failureThresholds)) ∧
      cache_get_entry (watch_execute_success c' h) (h ++ "-failures") =
        some (.cint 0) := by
  induction n with
  | zero =>
    have hg : cache_get_entry (watch_execute_success c h) (h ++ "-failures") =
        some (.cint 0) := cache_put_get c _ _
    have h0 : countThresholds 0 = 0 := by decide
    refine ⟨watch_execute_success c h, by simp [iterate_failures, h0], hg, ?_, ?_⟩
    · unfold watch_execute_fail
      rw [hg]
      rfl
    · exact cache_put_get _ _ _
  | succ n ih =>
    obtain ⟨c', h1, h2, h3, h4⟩ := ih
    have hfail : watch_execute_fail c' h =
        .ok (cache_put_entry c' (h ++ "-failures") (.cint ((n : Int) + 1)),
             decide ((n : Int) ∈ failureThresholds)) := by
      unfold watch_execute_fail
      rw [h2]
    have hcast : ((n : Int) + 1) = ((n + 1 : Nat) : Int) := by push_cast; ring
    have hg2 : cache_get_entry
        (cache_put_entry c' (h ++ "-failures") (.cint ((n : Int) + 1)))
        (h ++ "-failures") = some (.cint ((n + 1 : Nat) : Int)) := by
      rw [cache_put_get, hcast]
    refine ⟨cache_put_entry c' (h ++ "-failures") (.cint ((n : Int) + 1)), ?_, hg2, ?_, ?_⟩
    · simp only [iterate_failures, h1, hfail, bind, Except.bind, pure, Except.pure]
      rw [countThresholds_step]
      by_cases hmem : (n : Int) ∈ failureThresholds <;> simp [hmem]
    · unfold watch_execute_fail
      rw [hg2]
      rfl
    · exact cache_put_get _ _ _

/-- C7 amended: after a successful `close`, the `closed` flag is set and
the temporary directory is gone; a SECOND `close` raises instead of being
a no-op; `put_entry`/`get_entry` after close silently succeed against the
in-memory map (no method consults `closed`); `put_file` after close
raises; `has_file`/`get_file` after close see an empty store. -/
theorem cache_close_behaviour (c c' : CacheSt) (hc : cache_close c = .ok c') :
    c'.closed = true ∧
    (cache_close c').toOption = none ∧
    (∀ k v, cache_get_entry (cache_put_entry c' k v) k = some v) ∧
    (∀ k v, (cache_put_file c' k v).toOption = none) ∧
    (∀ k, cache_has_file c' k = false) ∧
    (∀ k, cache_get_file c' k = none) := by
  rcases c with ⟨cp, de, en, fi, cl⟩
  cases cp with
  | none =>
    cases de with
    | false => simp [cache_close] at hc
    | true =>
      have hc' : (⟨none, false, en, [], true⟩ : CacheSt) = c' := Except.ok.inj hc
      subst hc'
      exact ⟨rfl, rfl, fun k v => cache_put_get _ _ _, fun k v => rfl,
        fun k => rfl, fun k => rfl⟩
  | some p =>
    cases de with
    | false => simp [cache_close] at hc
    | true =>
      have hc' : (⟨some p, false, en, [], true⟩ : CacheSt) = c' := Except.ok.inj hc
      subst hc'
      exact ⟨rfl, rfl, fun k v => cache_put_get _ _ _, fun k v => rfl,
        fun k => rfl, fun k => rfl⟩

/-- Witness for `cache_close_behaviour` on a freshly constructed
path-less cache. -/
theorem cache_close_behaviour_witness :
    closedCacheNone.closed = true ∧
    (cache_close closedCacheNone).toOption = none ∧
    cache_get_entry (cache_put_entry closedCacheNone "k" (.cint 7)) "k" =
      some (.cint 7) ∧
    (cache_put_file closedCacheNone "k" (.cint 7)).toOption = none ∧
    cache_has_file closedCacheNone "k" = false ∧
    cache_get_file closedCacheNone "k" = none := by
  have h := cache_close_behaviour (cache_init none) closedCacheNone rfl
  exact ⟨h.1, h.2.1, h.2.2.1 "k" (.cint 7), h.2.2.2.1 "k" (.cint 7),
    h.2.2.2.2.1 "k", h.2.2.2.2.2 "k"⟩

/-- C4 counterexample: an item whose `vars[key]` is the EMPTY byte string
defeats the `since` idempotence: the stored marker is falsy, so
`get_cached_data` discards it (`if data:`) and the second run emits the
item again instead of the empty list. -/
theorem since_not_idempotent_on_empty_key :
    (since_run_all "key" "ck"
      (since_run_all "key" "ck" [] [⟨[118], [("key", .vbytes [])]⟩]).1
      [⟨[118], [("key", .vbytes [])]⟩]).2 = [⟨[118], [("key", .vbytes [])]⟩] ∧
    ([⟨[118], [("key", .vbytes [])]⟩] : List SelectorItem) ≠ [] := by
  refine ⟨by decide, by decide⟩

theorem newGo_mem_preserved (selKey : String) (items : List SelectorItem)
    (cached : List (List Nat)) (acc : List SelectorItem) (x : List Nat)
    (hx : x ∈ cached) : x ∈ (newGo selKey items cached acc).1 := by
  induction items generalizing cached acc with
  | nil => exact hx
  | cons it rest ih =>
    simp only [newGo]
    by_cases h : derivedKey selKey it ∈ cached
    · rw [if_pos h]
      exact ih _ _ hx
    · rw [if_neg h]
      exact ih _ _ (List.mem_append.mpr (Or.inl hx))

theorem newGo_mem (selKey : String) (items : List SelectorItem)
    (cached : List (List Nat)) (acc : List SelectorItem) (it : SelectorItem) :
    it ∈ items → derivedKey selKey it ∈ (newGo selKey items cached acc).1 := by
  induction items generalizing cached acc with
  | nil => intro hit; cases hit
  | cons hd rest ih =>
    intro hit
    simp only [newGo]
    rcases List.mem_cons.mp hit with h | h
    · subst h
      by_cases hmem : derivedKey selKey it ∈ cached
      · rw [if_pos hmem]
        exact newGo_mem_preserved _ _ _ _ _ hmem
      · rw [if_neg hmem]
        exact newGo_mem_preserved _ _ _ _ _
          (List.mem_append.mpr (Or.inr (List.mem_singleton.mpr rfl)))
    · by_cases hmem : derivedKey selKey hd ∈ cached
      · rw [if_pos hmem]
        exact ih _ _ h
      · rw [if_neg hmem]
        exact ih _ _ h

theorem newGo_all_cached (selKey : String) (items : List SelectorItem)
    (cached : List (List Nat)) (acc : List SelectorItem) :
    (∀ it ∈ items, derivedKey selKey it ∈ cached) →
    (newGo selKey items cached acc).2 = acc := by
  induction items generalizing acc with
  | nil => intro _; rfl
  | cons hd rest ih =>
    intro h
    simp only [newGo]
    rw [if_pos (h hd (List.mem_cons_self hd rest))]
    exact ih acc (fun it hit => h it (List.mem_cons_of_mem hd hit))

theorem files_put_lookup (c : CacheFiles) (k : String) (v : CVal) :
    alookup (files_put c k v) k = some v :=
  aput_lookup c k v

/-- Running the `new` selector twice over the same items against the same
backing cache gives an empty second output: the first run stores every
derived key, the second finds them all cached. -/
theorem new_run_all_twice_empty (selKey hk : String) (cache : CacheFiles)
    (items : List SelectorItem) :
    (new_run_all selKey hk (new_run_all selKey hk cache items).1 items).2 = [] := by
  cases items with
  | nil => rfl
  | cons it0 rest =>
    have hsnd : (new_run_all selKey hk
        (new_run_all selKey hk cache (it0 :: rest)).1 (it0 :: rest)).2 =
        (newGo selKey (it0 :: rest)
          (new_get_cached_data
            (files_put cache hk
              (.cbytesList
                (newGo selKey (it0 :: rest) (new_get_cached_data cache hk) []).1))
            hk) []).2 := rfl
    rw [hsnd]
    generalize hF : (newGo selKey (it0 :: rest) (new_get_cached_data cache hk) []).1 = F
    have hmem0 : derivedKey selKey it0 ∈ F := by
      rw [← hF]
      exact newGo_mem _ _ _ _ _ (List.mem_cons_self it0 rest)
    have hall : ∀ it ∈ it0 :: rest, derivedKey selKey it ∈ F := by
      intro it hit
      rw [← hF]
      exact newGo_mem _ _ _ _ it hit
    have hlook : alookup (files_put cache hk (.cbytesList F)) hk = some (.cbytesList F) :=
      files_put_lookup _ _ _
    have htr : cTruthy (.cbytesList F) = true := by
      cases hFc : F with
      | nil => rw [hFc] at hmem0; cases hmem0
      | cons a l => rfl
    have hcached : new_get_cached_data (files_put cache hk (.cbytesList F)) hk = F := by
      unfold new_get_cached_data
      rw [hlook]
      simp [htr]
    rw [hcached]
    exact newGo_all_cached _ _ _ _ hall

/-- A cache whose marker for `hk` is the (non-empty) derived key of the
first item makes the `since` selector emit nothing and leave the cache
unchanged. -/
theorem since_run_all_marker_fixed (selKey hk : String) (c1 : CacheFiles)
    (it0 : SelectorItem) (rest : List SelectorItem)
    (hmark : alookup c1 hk = some (.cbytes (derivedKey selKey it0)))
    (hk0 : derivedKey selKey it0 ≠ []) :
    since_run_all selKey hk c1 (it0 :: rest) = (c1, []) := by
  have htr : cTruthy (.cbytes (derivedKey selKey it0)) = true := by
    cases hkey : derivedKey selKey it0 with
    | nil => exact absurd hkey hk0
    | cons a l => rfl
  have hmarker : since_get_cached_data c1 hk = some (.cbytes (derivedKey selKey it0)) := by
    unfold since_get_cached_data
    rw [hmark]
    simp [htr]
  have hidx : since_index selKey (some (.cbytes (derivedKey selKey it0)))
      (it0 :: rest) = some 0 := by
    simp [since_index, sinceIdx]
  unfold since_run_all
  rw [hmarker, hidx]
  rfl

theorem since_get_cached_data_lookup (cache : CacheFiles) (hk : String) (lv : CVal)
    (h : since_get_cached_data cache hk = some lv) : alookup cache hk = some lv := by
  unfold since_get_cached_data at h
  cases hl : alookup cache hk with
  | none => rw [hl] at h; cases h
  | some w =>
    rw [hl] at h
    by_cases htr : cTruthy w = true
    · simp only [htr, if_true] at h
      exact h
    · simp only [htr, if_false] at h
      simp at h

/-- The cache after one `since` run over non-empty items holds the first
item's derived key as the marker. -/
theorem since_run_all_first_marker (selKey hk : String) (cache : CacheFiles)
    (it0 : SelectorItem) (rest : List SelectorItem) :
    alookup (since_run_all selKey hk cache (it0 :: rest)).1 hk =
      some (.cbytes (derivedKey selKey it0)) := by
  unfold since_run_all
  cases hm : since_get_cached_data cache hk with
  | none =>
    show alookup
        ((match (it0 :: rest).take
            ((since_index selKey none (it0 :: rest)).getD (it0 :: rest).length) with
          | [] => (cache, [])
          | it0 :: rest =>
            (files_put cache hk (.cbytes (derivedKey selKey it0)), it0 :: rest)).1) hk = _
    have hidx : since_index selKey none (it0 :: rest) = none := rfl
    rw [hidx]
    show alookup
        ((match (it0 :: rest).take (it0 :: rest).length with
          | [] => (cache, [])
          | it0 :: rest =>
            (files_put cache hk (.cbytes (derivedKey selKey it0)), it0 :: rest)).1) hk = _
    rw [List.take_length]
    exact files_put_lookup _ _ _
  | some lv =>
    by_cases hp : (CVal.cbytes (derivedKey selKey it0) == lv) = true
    · have hidx : since_index selKey (some lv) (it0 :: rest) = some 0 := by
        simp only [since_index, sinceIdx, hp, if_pos]
      rw [hidx]
      have hlv : lv = CVal.cbytes (derivedKey selKey it0) := by
        have h2 := beq_iff_eq.mp hp
        exact h2.symm
      have := since_get_cached_data_lookup cache hk lv hm
      rw [hlv] at this
      exact this
    · have hidx : since_index selKey (some lv) (it0 :: rest) =
          (sinceIdx (fun it => CVal.cbytes (derivedKey selKey it) == lv) rest).map
            (· + 1) := by
        simp only [since_index, sinceIdx, hp]
        rw [if_neg]
        simp [hp]
      rw [hidx]
      cases hrest : sinceIdx (fun it => CVal.cbytes (derivedKey selKey it) == lv) rest with
      | none =>
        show alookup
            ((match (it0 :: rest).take (it0 :: rest).length with
              | [] => (cache, [])
              | it0 :: rest =>
                (files_put cache hk (.cbytes (derivedKey selKey it0)), it0 :: rest)).1) hk = _
        rw [List.take_length]
        exact files_put_lookup _ _ _
      | some j =>
        show alookup
            ((match (it0 :: rest).take (j + 1) with
              | [] => (cache, [])
              | it0 :: rest =>
                (files_put cache hk (.cbytes (derivedKey selKey it0)), it0 :: rest)).1) hk = _
        rw [List.take_succ_cons]
        exact files_put_lookup _ _ _

/-- C4 amended: `new` is idempotent for every item list and cache; `since`
over the same non-empty item list twice yields an empty second output and
leaves the first item's derived key as the stored marker, PROVIDED that
derived key is a non-empty byte string (always true for the sha256-hex
fallback; an empty `vars[key]` defeats the marker's truthiness test). -/
theorem new_since_idempotence :
    (∀ (selKey hk : String) (cache : CacheFiles) (items : List SelectorItem),
      (new_run_all selKey hk (new_run_all selKey hk cache items).1 items).2 = []) ∧
    (∀ (selKey hk : String) (cache : CacheFiles) (it0 : SelectorItem)
        (rest : List SelectorItem), derivedKey selKey it0 ≠ [] →
      (since_run_all selKey hk
          (since_run_all selKey hk cache (it0 :: rest)).1 (it0 :: rest)).2 = [] ∧
      alookup (since_run_all selKey hk
          (since_run_all selKey hk cache (it0 :: rest)).1 (it0 :: rest)).1 hk =
        some (.cbytes (derivedKey selKey it0))) := by
  constructor
  · exact new_run_all_twice_empty
  · intro selKey hk cache it0 rest hk0
    have hmark := since_run_all_first_marker selKey hk cache it0 rest
    have hsecond := since_run_all_marker_fixed selKey hk
      (since_run_all selKey hk cache (it0 :: rest)).1 it0 rest hmark hk0
    rw [hsecond]
    exact ⟨rfl, hmark⟩

/-- Witness for the amended new/since idempotence at a concrete two-item
list and empty starting cache. -/
theorem new_since_idempotence_witness :
    (new_run_all "key" "ck"
      (new_run_all "key" "ck" [] [⟨[49], []⟩, ⟨[50], []⟩]).1
      [⟨[49], []⟩, ⟨[50], []⟩]).2 = [] ∧
    derivedKey "key" ⟨[49], []⟩ ≠ [] ∧
    (since_run_all "key" "ck"
      (since_run_all "key" "ck" [] [⟨[49], []⟩, ⟨[50], []⟩]).1
      [⟨[49], []⟩, ⟨[50], []⟩]).2 = [] := by
  refine ⟨new_since_idempotence.1 "key" "ck" [] [⟨[49], []⟩, ⟨[50], []⟩], by decide, ?_⟩
  exact (new_since_idempotence.2 "key" "ck" [] ⟨[49], []⟩ [⟨[50], []⟩] (by decide)).1

theorem varsPush_alookup {α : Type} (vars : List (String × List α)) (k : String) (v : α) :
    alookup (varsPush vars k v) k = some (((alookup vars k).getD []) ++ [v]) := by
  unfold varsPush
  cases h : alookup vars k with
  | none =>
    rw [alookup_append_none _ _ _ h]
    simp [alookup]
  | some stack =>
    rw [alookup_map_update, h]
    rfl

theorem find?_append_none {α : Type} (a b : List α) (p : α → Bool)
    (h : ∀ x ∈ a, p x = false) : (a ++ b).find? p = b.find? p := by
  induction a with
  | nil => rfl
  | cons x rest ih =>
    have hx : p x = false := h x (List.mem_cons_self x rest)
    simp only [List.cons_append, List.find?, hx]
    exact ih (fun y hy => h y (List.mem_cons_of_mem x hy))

/-- After a successful `push_variable`, the pushed value is what
`get_variable` returns, provided no OLDER frame binds the name (the lookup
scans frames oldest-first). -/
theorem get_variable_after_push {α : Type} (ctx ctx' : Context α) (k : String) (v : α)
    (hpush : push_variable ctx k v = .ok ctx')
    (hfr : ∀ f ∈ ctx.frames.dropLast, alookup f.vars k = none) :
    get_variable ctx' k = some v := by
  obtain ⟨fs, pv⟩ := ctx
  unfold push_variable at hpush
  cases hlast : List.getLast? fs with
  | none =>
    rw [hlast] at hpush
    cases hpush
  | some f =>
    rw [hlast] at hpush
    have hctx' := Except.ok.inj hpush
    subst hctx'
    unfold get_variable
    have hfind : List.find? (fun fr => (alookup fr.vars k).isSome)
        (fs.dropLast ++ [{ f with vars := varsPush f.vars k v }]) =
        some { f with vars := varsPush f.vars k v } := by
      rw [find?_append_none _ _ _ (fun fr hfr' => by rw [hfr fr hfr']; rfl)]
      simp only [List.find?]
      rw [varsPush_alookup]
      rfl
    rw [hfind]
    show (alookup (varsPush f.vars k v) k).bind List.getLast? = _
    rw [varsPush_alookup]
    simp only [Option.bind]
    exact List.getLast?_concat _

/-- C5: for any selector with `store` set, `execute` returns the ORIGINAL
input item list unchanged for the downstream pipeline, and the transform's
result is retrievable via `get_variable(store)` — the latter provided no
earlier (older) frame binds the store name, since `get_variable` scans the
oldest frame first. -/
theorem selector_store_passthrough (inputF : Option String) (s : String)
    (runAll : Context PyObj → List PyObj → Context PyObj × List PyObj)
    (ctx : Context PyObj) (data : List PyObj)
    (ctxR : Context PyObj) (out : List PyObj)
    (hexec : selector_execute inputF (some s) runAll ctx data = .ok (ctxR, out)) :
    out = data ∧
    ((∀ f ∈ ((runAll ctx (resolve_input inputF ctx data)).1).frames.dropLast,
        alookup f.vars s = none) →
      get_variable ctxR s =
        some (.oList (runAll ctx (resolve_input inputF ctx data)).2)) := by
  unfold selector_execute at hexec
  by_cases hall : ((runAll ctx (resolve_input inputF ctx data)).2.all PyObj.isItem) = true
  · rw [if_pos hall] at hexec
    have hexec' : (do
        let ctx2 ← push_variable (runAll ctx (resolve_input inputF ctx data)).1 s
            (.oList (runAll ctx (resolve_input inputF ctx data)).2)
        pure (ctx2, data) : Except String (Context PyObj × List PyObj)) =
        .ok (ctxR, out) := hexec
    cases hpush : push_variable (runAll ctx (resolve_input inputF ctx data)).1 s
        (.oList (runAll ctx (resolve_input inputF ctx data)).2) with
    | error e =>
      rw [hpush] at hexec'
      cases hexec'
    | ok ctx2 =>
      rw [hpush] at hexec'
      have hpair : (ctx2, data) = (ctxR, out) := Except.ok.inj hexec' 
      have hctx : ctx2 = ctxR := congrArg Prod.fst hpair
      have hout : out = data := (congrArg Prod.snd hpair).symm
      refine ⟨hout, fun hfr => ?_⟩
      rw [← hctx]
      exact get_variable_after_push _ _ _ _ hpush hfr
  · rw [if_neg hall] at hexec
    cases hexec

/-- Witness for the store pass-through at an identity `run_all`, a fresh
context and a one-item pipeline. -/
theorem selector_store_passthrough_witness :
    ([PyObj.oItem ⟨[1], []⟩] : List PyObj) = [PyObj.oItem ⟨[1], []⟩] ∧
    get_variable wCtxR "st" = some (.oList [.oItem ⟨[1], []⟩]) := by
  have h := selector_store_passthrough none "st" (fun c xs => (c, xs))
    (Context.init PyObj) [.oItem ⟨[1], []⟩] wCtxR [.oItem ⟨[1], []⟩] rfl
  exact ⟨h.1, h.2 (fun f hf => absurd hf (List.not_mem_nil f))⟩

/-! ## Hash-stability lemmas (claim C3) -/

theorem hashArgsKVs_cons (k : String) (v : PyValue) (rest : List (String × PyValue))
    (hash : List Nat) (skip : List String) :
    hashArgsKVs ((k, v) :: rest) hash skip =
      if k ∈ skip then hashArgsKVs rest hash skip
      else hashArgsKVs rest
        (hash_args v (hashScalar hash k ++ strBytes ":") skip ++ strBytes ",") skip := rfl

theorem alookup_cons {α : Type} (k' k : String) (v : α) (rest : List (String × α)) :
    alookup ((k', v) :: rest) k = if k' = k then some v else alookup rest k := rfl

theorem hashArgsKVs_eq_fskip (skip : List String) (m : List (String × PyValue)) :
    ∀ hash, hashArgsKVs m hash skip = hashArgsKVs (fskip skip m) hash skip := by
  induction m with
  | nil => intro hash; rfl
  | cons kv rest ih =>
    intro hash
    obtain ⟨k, v⟩ := kv
    by_cases hks : k ∈ skip
    · have hfilter : fskip skip ((k, v) :: rest) = fskip skip rest := by
        simp [fskip, List.filter, hks]
      rw [hfilter, hashArgsKVs_cons, if_pos hks]
      exact ih hash
    · have hfilter : fskip skip ((k, v) :: rest) = (k, v) :: fskip skip rest := by
        simp [fskip, List.filter, hks]
      rw [hfilter, hashArgsKVs_cons, hashArgsKVs_cons, if_neg hks, if_neg hks]
      exact ih _

theorem hashArgsKVs_congr (skip : List String) (m1 m2 : List (String × PyValue))
    (h : fskip skip m1 = fskip skip m2) (hash : List Nat) :
    hashArgsKVs m1 hash skip = hashArgsKVs m2 hash skip := by
  rw [hashArgsKVs_eq_fskip skip m1 hash, hashArgsKVs_eq_fskip skip m2 hash, h]

theorem hashArgsKVs_append (skip : List String) (a b : List (String × PyValue)) :
    ∀ hash, hashArgsKVs (a ++ b) hash skip = hashArgsKVs b (hashArgsKVs a hash skip) skip := by
  induction a with
  | nil => intro hash; rfl
  | cons kv rest ih =>
    intro hash
    obtain ⟨k, v⟩ := kv
    show hashArgsKVs ((k, v) :: (rest ++ b)) hash skip =
      hashArgsKVs b (hashArgsKVs ((k, v) :: rest) hash skip) skip
    rw [hashArgsKVs_cons, hashArgsKVs_cons]
    by_cases hks : k ∈ skip
    · rw [if_pos hks, if_pos hks]
      exact ih hash
    · rw [if_neg hks, if_neg hks]
      exact ih _

theorem alookup_fskip (skip : List String) (m : List (String × PyValue)) (k : String)
    (hk : k ∉ skip) : alookup (fskip skip m) k = alookup m k := by
  induction m with
  | nil => rfl
  | cons kv rest ih =>
    obtain ⟨k', v⟩ := kv
    by_cases hks : k' ∈ skip
    · have hne : ¬(k' = k) := fun he => hk (he ▸ hks)
      have hfilter : fskip skip ((k', v) :: rest) = fskip skip rest := by
        simp [fskip, List.filter, hks]
      rw [hfilter, alookup_cons, if_neg hne]
      exact ih
    · have hfilter : fskip skip ((k', v) :: rest) = (k', v) :: fskip skip rest := by
        simp [fskip, List.filter, hks]
      rw [hfilter, alookup_cons, alookup_cons]
      by_cases he : k' = k
      · rw [if_pos he, if_pos he]
      · rw [if_neg he, if_neg he]
        exact ih

theorem fskip_aremove (skip : List String) (m : List (String × PyValue)) (k : String) :
    fskip skip (aremove m k) = aremove (fskip skip m) k := by
  unfold fskip aremove
  rw [List.filter_filter, List.filter_filter]
  congr 1
  funext kv
  rw [Bool.and_comm]

theorem fskip_cons_mem (skip : List String) (k : String) (v : PyValue)
    (l : List (String × PyValue)) (hks : k ∈ skip) :
    fskip skip ((k, v) :: l) = fskip skip l := by
  simp [fskip, List.filter, hks]

theorem fskip_cons_not_mem (skip : List String) (k : String) (v : PyValue)
    (l : List (String × PyValue)) (hks : k ∉ skip) :
    fskip skip ((k, v) :: l) = (k, v) :: fskip skip l := by
  simp [fskip, List.filter, hks]

theorem ebind_ok {α β : Type} (a : α) (f : α → Except String β) :
    (Except.ok a : Except String α).bind f = f a := rfl

theorem ebind_err {α β : Type} (e : String) (f : α → Except String β) :
    (Except.error e : Except String α).bind f = .error e := rfl

theorem load_lkwargs_cons_some (k : String) (spec : KeySpec)
    (rest : List (String × KeySpec)) (kw : List (String × PyValue)) (v : PyValue)
    (hl : alookup kw k = some v) :
    load_lkwargs ((k, spec) :: rest) kw =
      (spec.coerce v).bind (fun cv =>
        (load_lkwargs rest (aremove kw k)).bind (fun p =>
          .ok ((k, cv) :: p.1, p.2))) := by
  conv_lhs => unfold load_lkwargs
  rw [hl]
  rfl

theorem load_lkwargs_cons_none (k : String) (spec : KeySpec)
    (rest : List (String × KeySpec)) (kw : List (String × PyValue))
    (hl : alookup kw k = none) :
    load_lkwargs ((k, spec) :: rest) kw =
      (load_lkwargs rest kw).bind (fun p =>
        .ok ((k, spec.default) :: p.1, p.2)) := by
  conv_lhs => unfold load_lkwargs
  rw [hl]
  rfl

/-- One step of the `Loadable.load` field loop: the head key either came
coerced from kwargs (which loses its entry) or took the default. -/
theorem load_step (k : String) (spec : KeySpec) (rest : List (String × KeySpec))
    (kw lk r : List (String × PyValue))
    (h : load_lkwargs ((k, spec) :: rest) kw = .ok (lk, r)) :
    ∃ hd tl kw', lk = (k, hd) :: tl ∧ load_lkwargs rest kw' = .ok (tl, r) ∧
      ((∃ v, alookup kw k = some v ∧ spec.coerce v = .ok hd ∧ kw' = aremove kw k) ∨
       (alookup kw k = none ∧ hd = spec.default ∧ kw' = kw)) := by
  cases hl : alookup kw k with
  | some v =>
    rw [load_lkwargs_cons_some k spec rest kw v hl] at h
    cases hc : spec.coerce v with
    | error e =>
      rw [hc, ebind_err] at h
      cases h
    | ok cv =>
      rw [hc, ebind_ok] at h
      cases hrec : load_lkwargs rest (aremove kw k) with
      | error e =>
        rw [hrec, ebind_err] at h
        cases h
      | ok p =>
        rw [hrec, ebind_ok] at h
        have e := Except.ok.inj h
        have elk : (k, cv) :: p.1 = lk := congrArg Prod.fst e
        have er : p.2 = r := congrArg Prod.snd e
        refine ⟨cv, p.1, aremove kw k, elk.symm, ?_, Or.inl ⟨v, rfl, hc, rfl⟩⟩
        rw [← er]
        exact hrec
  | none =>
    rw [load_lkwargs_cons_none k spec rest kw hl] at h
    cases hrec : load_lkwargs rest kw with
    | error e =>
      rw [hrec, ebind_err] at h
      cases h
    | ok p =>
      rw [hrec, ebind_ok] at h
      have e := Except.ok.inj h
      have elk : (k, spec.default) :: p.1 = lk := congrArg Prod.fst e
      have er : p.2 = r := congrArg Prod.snd e
      refine ⟨spec.default, p.1, kw, elk.symm, ?_, Or.inr ⟨rfl, rfl, rfl⟩⟩
      rw [← er]
      exact hrec

theorem fskip_aremove_skip (skip : List String) (m : List (String × PyValue))
    (k : String) (hks : k ∈ skip) : fskip skip (aremove m k) = fskip skip m := by
  induction m with
  | nil => rfl
  | cons kv rest ih =>
    obtain ⟨k', v⟩ := kv
    by_cases he : k' = k
    · subst he
      have h1 : aremove ((k', v) :: rest) k' = aremove rest k' := by
        simp [aremove, List.filter]
      rw [h1, ih]
      have h2 : fskip skip ((k', v) :: rest) = fskip skip rest := by
        simp [fskip, List.filter, hks]
      rw [h2]
    · have h1 : aremove ((k', v) :: rest) k = (k', v) :: aremove rest k := by
        simp [aremove, List.filter, he]
      rw [h1]
      by_cases hks' : k' ∈ skip
      · have h2 : ∀ l, fskip skip ((k', v) :: l) = fskip skip l := by
          intro l
          simp [fskip, List.filter, hks']
        rw [h2, h2, ih]
      · have h2 : ∀ l, fskip skip ((k', v) :: l) = (k', v) :: fskip skip l := by
          intro l
          simp [fskip, List.filter, hks']
        rw [h2, h2, ih]

/-- Two kwargs maps that agree outside the skip set produce coerced field
maps and residual kwargs that also agree outside the skip set. -/
theorem load_lkwargs_fskip (skip : List String) (schema : List (String × KeySpec)) :
    ∀ (kw1 kw2 lk1 r1 lk2 r2 : List (String × PyValue)),
    fskip skip kw1 = fskip skip kw2 →
    load_lkwargs schema kw1 = .ok (lk1, r1) →
    load_lkwargs schema kw2 = .ok (lk2, r2) →
    fskip skip lk1 = fskip skip lk2 ∧ fskip skip r1 = fskip skip r2 := by
  induction schema with
  | nil =>
    intro kw1 kw2 lk1 r1 lk2 r2 hf h1 h2
    have e1 := Except.ok.inj h1
    have e2 := Except.ok.inj h2
    have e1a : ([] : List (String × PyValue)) = lk1 := congrArg Prod.fst e1
    have e1b : kw1 = r1 := congrArg Prod.snd e1
    have e2a : ([] : List (String × PyValue)) = lk2 := congrArg Prod.fst e2
    have e2b : kw2 = r2 := congrArg Prod.snd e2
    rw [← e1a, ← e1b, ← e2a, ← e2b]
    exact ⟨rfl, hf⟩
  | cons ks rest ih =>
    obtain ⟨k, spec⟩ := ks
    intro kw1 kw2 lk1 r1 lk2 r2 hf h1 h2
    obtain ⟨hd1, tl1, kw1', hlk1, hrec1, hcase1⟩ := load_step k spec rest kw1 lk1 r1 h1
    obtain ⟨hd2, tl2, kw2', hlk2, hrec2, hcase2⟩ := load_step k spec rest kw2 lk2 r2 h2
    by_cases hks : k ∈ skip
    · have hkw' : fskip skip kw1' = fskip skip kw2' := by
        rcases hcase1 with ⟨v1, _, _, hkw1'⟩ | ⟨_, _, hkw1'⟩ <;>
          rcases hcase2 with ⟨v2, _, _, hkw2'⟩ | ⟨_, _, hkw2'⟩ <;>
          subst hkw1' <;> subst hkw2' <;>
          simp only [fskip_aremove_skip _ _ _ hks, hf]
      obtain ⟨ihl, ihr⟩ := ih kw1' kw2' tl1 r1 tl2 r2 hkw' hrec1 hrec2
      subst hlk1
      subst hlk2
      exact ⟨by rw [fskip_cons_mem _ _ _ _ hks, fskip_cons_mem _ _ _ _ hks, ihl], ihr⟩
    · have hleq : alookup kw1 k = alookup kw2 k := by
        rw [← alookup_fskip skip kw1 k hks, ← alookup_fskip skip kw2 k hks, hf]
      have hsame : hd1 = hd2 ∧ fskip skip kw1' = fskip skip kw2' := by
        rcases hcase1 with ⟨v1, hl1, hc1, hkw1'⟩ | ⟨hl1, hdef1, hkw1'⟩ <;>
          rcases hcase2 with ⟨v2, hl2, hc2, hkw2'⟩ | ⟨hl2, hdef2, hkw2'⟩
        · have hv : v1 = v2 := by
            rw [hl1, hl2] at hleq
            exact Option.some.inj hleq
          subst hv
          rw [hc1] at hc2
          refine ⟨Except.ok.inj hc2, ?_⟩
          subst hkw1'
          subst hkw2'
          rw [fskip_aremove, fskip_aremove, hf]
        · rw [hl1, hl2] at hleq
          cases hleq
        · rw [hl1, hl2] at hleq
          cases hleq
        · subst hkw1'
          subst hkw2'
          exact ⟨hdef1.trans hdef2.symm, hf⟩
      obtain ⟨hhd, hkw'⟩ := hsame
      obtain ⟨ihl, ihr⟩ := ih kw1' kw2' tl1 r1 tl2 r2 hkw' hrec1 hrec2
      subst hlk1
      subst hlk2
      subst hhd
      exact ⟨by rw [fskip_cons_not_mem _ _ _ _ hks, fskip_cons_not_mem _ _ _ _ hks, ihl],
        ihr⟩

theorem hash_args_pdict (m : List (String × PyValue)) (hash : List Nat)
    (skip : List String) :
    hash_args (.pdict m) hash skip =
      hashArgsKVs m (hash ++ strBytes "\x7b") skip ++ strBytes "\x7d" := rfl

theorem hashArgsKVs_nil (hash : List Nat) (skip : List String) :
    hashArgsKVs [] hash skip = hash := rfl

theorem loadable_load_eq (schema : List (String × KeySpec)) (skip : List String)
    (kw : List (String × PyValue))
    (p : List (String × PyValue) × List (String × PyValue))
    (e : load_lkwargs schema kw = .ok p) :
    loadable_load schema skip kw =
      .ok { lkwargs := p.1 ++ [("kwargs", .pdict p.2)],
            hashStream := hash_args (.pdict (p.1 ++ [("kwargs", .pdict p.2)])) [] skip } := by
  conv_lhs => unfold loadable_load
  rw [e]
  rfl

theorem loadable_load_err (schema : List (String × KeySpec)) (skip : List String)
    (kw : List (String × PyValue)) (s : String)
    (e : load_lkwargs schema kw = .error s) :
    loadable_load schema skip kw = .error s := by
  conv_lhs => unfold loadable_load
  rw [e]
  rfl

/-- C3: (a) two `load` invocations whose kwargs differ only in fields of
the `hash_skip` set (their erasures by `fskip` coincide — for Watches the
`comment` field) produce equal hash streams, hence equal sha256 hashes;
(b) the hash is a function of the post-coercion field map: equal coerced
`lkwargs` give equal hashes regardless of the raw kwargs. -/
theorem loadable_hash_stability :
    (∀ (schema : List (String × KeySpec)) (skip : List String)
        (kw1 kw2 : List (String × PyValue)) (r1 r2 : LoadResult),
        fskip skip kw1 = fskip skip kw2 →
        loadable_load schema skip kw1 = .ok r1 →
        loadable_load schema skip kw2 = .ok r2 →
        r1.hashStream = r2.hashStream) ∧
    (∀ (schema : List (String × KeySpec)) (skip : List String)
        (kw1 kw2 : List (String × PyValue)) (r1 r2 : LoadResult),
        loadable_load schema skip kw1 = .ok r1 →
        loadable_load schema skip kw2 = .ok r2 →
        r1.lkwargs = r2.lkwargs →
        r1.hashStream = r2.hashStream) := by
  have hshape : ∀ (schema : List (String × KeySpec)) (skip : List String)
      (kw : List (String × PyValue)) (r : LoadResult),
      loadable_load schema skip kw = .ok r →
      r.hashStream = hash_args (.pdict r.lkwargs) [] skip := by
    intro schema skip kw r h
    cases e : load_lkwargs schema kw with
    | error s =>
      rw [loadable_load_err schema skip kw s e] at h
      cases h
    | ok p =>
      rw [loadable_load_eq schema skip kw p e] at h
      have := Except.ok.inj h
      rw [← this]
  constructor
  · intro schema skip kw1 kw2 r1 r2 hf h1 h2
    cases e1 : load_lkwargs schema kw1 with
    | error s =>
      rw [loadable_load_err schema skip kw1 s e1] at h1
      cases h1
    | ok p1 =>
      cases e2 : load_lkwargs schema kw2 with
      | error s =>
        rw [loadable_load_err schema skip kw2 s e2] at h2
        cases h2
      | ok p2 =>
        rw [loadable_load_eq schema skip kw1 p1 e1] at h1
        rw [loadable_load_eq schema skip kw2 p2 e2] at h2
        have hr1 := Except.ok.inj h1
        have hr2 := Except.ok.inj h2
        obtain ⟨hA, hB⟩ := load_lkwargs_fskip skip schema kw1 kw2 p1.1 p1.2 p2.1 p2.2
          hf e1 e2
        rw [← hr1, ← hr2]
        show hash_args (.pdict (p1.1 ++ [("kwargs", .pdict p1.2)])) [] skip =
          hash_args (.pdict (p2.1 ++ [("kwargs", .pdict p2.2)])) [] skip
        rw [hash_args_pdict, hash_args_pdict]
        congr 1
        rw [hashArgsKVs_append, hashArgsKVs_append]
        rw [hashArgsKVs_congr skip p1.1 p2.1 hA]
        rw [hashArgsKVs_cons, hashArgsKVs_cons]
        by_cases hkw : "kwargs" ∈ skip
        · rw [if_pos hkw, if_pos hkw]
        · rw [if_neg hkw, if_neg hkw]
          rw [hashArgsKVs_nil, hashArgsKVs_nil]
          congr 1
          rw [hash_args_pdict, hash_args_pdict]
          congr 1
          exact hashArgsKVs_congr skip p1.2 p2.2 hB _
  · intro schema skip kw1 kw2 r1 r2 h1 h2 hlk
    rw [hshape schema skip kw1 r1 h1, hshape schema skip kw2 r2 h2, hlk]

/-- Witness for hash stability: a watch-like schema with
`hash_skip = ["comment"]`; adding a `comment` kwarg leaves the hash
stream unchanged. -/
theorem loadable_hash_stability_witness :
    (loadable_load watch_like_schema ["comment"]
        [("cmd", .pstr "echo hi")]).toOption.map LoadResult.hashStream =
      (loadable_load watch_like_schema ["comment"]
        [("cmd", .pstr "echo hi"), ("comment", .pstr "note")]).toOption.map
          LoadResult.hashStream := by
  have hok1 : (loadable_load watch_like_schema ["comment"]
      [("cmd", .pstr "echo hi")]).isOk = true := rfl
  have hok2 : (loadable_load watch_like_schema ["comment"]
      [("cmd", .pstr "echo hi"), ("comment", .pstr "note")]).isOk = true := rfl
  cases h1 : loadable_load watch_like_schema ["comment"] [("cmd", .pstr "echo hi")] with
  | error s =>
    rw [h1] at hok1
    cases hok1
  | ok r1 =>
    cases h2 : loadable_load watch_like_schema ["comment"]
        [("cmd", .pstr "echo hi"), ("comment", .pstr "note")] with
    | error s =>
      rw [h2] at hok2
      cases hok2
    | ok r2 =>
      have := loadable_hash_stability.1 watch_like_schema ["comment"]
        [("cmd", .pstr "echo hi")] [("cmd", .pstr "echo hi"), ("comment", .pstr "note")]
        r1 r2 rfl h1 h2
      simp [Except.toOption, this]

end Swatch
